import Mathlib

/-!
Shallow embedding of the NebulaChart (Baby Island) geometry and interaction
engine from `src/src/App.tsx`. JavaScript number arithmetic is modelled by
exact rational arithmetic over `ℚ`. Angles are measured in units of π radians
(so the full circle is 2, a quarter turn is 1/2): every angle the source
builds is a rational multiple of `Math.PI`, and dividing each radian value by
π turns the modulus `2π` into the modulus `2` while preserving all
comparisons, so the drag snapping logic is unchanged by this choice of unit.
-/

/-- `Axis` record (App.tsx lines 6-10). -/
structure Axis where
  id : String
  label : String
  northStar : String
deriving DecidableEq

/-- `Ring` record (App.tsx lines 12-15). -/
structure RingItem where
  id : String
  label : String
deriving DecidableEq

/-- `NodeItem` record (App.tsx lines 17-23). The TypeScript type declares
`id, label, axisId, ringId, sequence`; the runtime objects are plain JSON
records, and the drag mutation copies every property with a spread, so we
also carry the optional manual-override property `rOverride` named by the
specification (section 3): no code in `App.tsx` ever reads or writes it, and
the embedding lets us state that fact. -/
structure NodeItem where
  id : String
  label : String
  axisId : String
  ringId : String
  sequence : Int
  rOverride : Option ℚ := none
deriving DecidableEq

/-- The outer drawing radius from the viewport size
(`outerR2 = Math.max(1, Math.min(w, h) / 2 - padding)` with `padding = 56`,
App.tsx lines 2163-2167). -/
def outerR2FromSize (w h : ℚ) : ℚ := max 1 (min w h / 2 - 56)

/-- Base radius for a ring id (the map `{ now: ringNow, next: ringNext,
later: ringLater }` with lookup `?? ringLater`, used at App.tsx lines
2180-2184 and 2620-2624): `ringNow = 0.4·o`, `ringNext = 0.7·o`,
`ringLater = o`, and an unknown ring id falls back to `ringLater`. -/
def ringRadiusById (o : ℚ) (rid : String) : ℚ :=
  if rid = "now" then 2/5 * o else if rid = "next" then 7/10 * o else o

/-- The intra-ring spread constant (`const spread = 18`). -/
def spread : ℚ := 18

/-- `offset = k <= 1 ? 0 : ((idx / (k - 1)) * 2 - 1) * spread`
(App.tsx lines 2649-2650 and 240). `idx` is an `Int` because a failed
JavaScript `findIndex` yields `-1`. -/
def spreadOffset (idx : Int) (k : Nat) : ℚ :=
  if k ≤ 1 then 0 else ((idx : ℚ) / ((k : ℚ) - 1) * 2 - 1) * spread

/-- `ringList.findIndex((x) => x.id === n.id)`: index of the first element
with the given id, `-1` when absent. -/
def idxOfId (l : List NodeItem) (nid : String) : Int :=
  match l.findIdx? (fun x => x.id == nid) with
  | some i => (i : Int)
  | none => -1

/-- Stable insertion into a sorted list: `a` goes in front of the first
element it compares `le` to. -/
def insertLe (le : NodeItem → NodeItem → Bool) (a : NodeItem) :
    List NodeItem → List NodeItem
  | [] => [a]
  | b :: l => if le a b then a :: b :: l else b :: insertLe le a l

/-- Stable sort by the comparator `le`; models the stable JavaScript
`Array.prototype.sort`. -/
def sortLe (le : NodeItem → NodeItem → Bool) : List NodeItem → List NodeItem
  | [] => []
  | a :: l => insertLe le a (sortLe le l)

/-- The node comparator `(a, b) => a.sequence - b.sequence ||
a.label.localeCompare(b.label)` read as a total preorder: by sequence, ties
by label (locale comparison modelled as lexicographic string order). -/
def nodeLe (a b : NodeItem) : Bool :=
  a.sequence < b.sequence || (a.sequence == b.sequence && decide (a.label ≤ b.label))

/-- `nodes.filter((n) => n.axisId === axisId).slice().sort(...)`
(App.tsx lines 2612-2615, 2249-2252, 249-252). -/
def sortedAxisNodes (nodes : List NodeItem) (axisId : String) : List NodeItem :=
  sortLe nodeLe (nodes.filter (fun n => n.axisId == axisId))

/-- `nodesByRing[rid] ?? []` where `nodesByRing` is built by reducing over
the ring collection (App.tsx lines 2629-2632, 2254-2257): the group exists
only for ids that occur in `rings`, and holds the axis nodes of that ring. -/
def ringListOf (rs : List RingItem) (axisNodes : List NodeItem) (rid : String) :
    List NodeItem :=
  if rs.any (fun r => r.id == rid) then axisNodes.filter (fun x => x.ringId == rid)
  else []

/-- `Math.max` over a non-empty list (`Math.max(...)` spread); `0` is never
reached because every caller guards emptiness. -/
def listMaxQ : List ℚ → ℚ
  | [] => 0
  | a :: l => l.foldl max a

/-- The raw (spread-adjusted, unclamped) radius of one committed node
(the function body mapped over `committedNodes`, App.tsx lines 2642-2653 and
2263-2272). -/
def committedRawR (o : ℚ) (rs : List RingItem) (axisNodes : List NodeItem)
    (cn : NodeItem) : ℚ :=
  let ringList := ringListOf rs axisNodes cn.ringId
  ringRadiusById o cn.ringId + spreadOffset (idxOfId ringList cn.id) ringList.length

/-- `committedMaxRawR` for a sorted axis node list (App.tsx lines 2636-2654):
`0` when the axis has no node outside the `uncommitted` ring, otherwise the
maximum raw radius over those nodes. -/
def committedMaxRawROnAxis (o : ℚ) (rs : List RingItem) (axisNodes : List NodeItem) : ℚ :=
  let committedNodes := axisNodes.filter (fun n => !(n.ringId == "uncommitted"))
  if committedNodes.isEmpty then 0
  else listMaxQ (committedNodes.map (committedRawR o rs axisNodes))

/-- `computeCommittedMaxRawRForAxis` (App.tsx lines 2246-2274): the same
computation, filtering and sorting the global node list for one axis. -/
def computeCommittedMaxRawRForAxis (o : ℚ) (rs : List RingItem)
    (nodes : List NodeItem) (axisId : String) : ℚ :=
  committedMaxRawROnAxis o rs (sortedAxisNodes nodes axisId)

/-- The per-node radius computed by the node rendering map
(App.tsx lines 2666-2692), for `axisNodes` already filtered to one axis and
sorted: `uncommitted` nodes are spaced evenly in the band from the furthest
committed raw radius (`0` if none) to the outer edge, every other node sits
at `base + spread offset`, and the result is clamped to `o - 10`. -/
def nodeRadiusOnAxis (o : ℚ) (rs : List RingItem) (axisNodes : List NodeItem)
    (n : NodeItem) : ℚ :=
  let ringList := ringListOf rs axisNodes n.ringId
  let idx := idxOfId ringList n.id
  let k := ringList.length
  let committedNodes := axisNodes.filter (fun x => !(x.ringId == "uncommitted"))
  let uncommittedList := ringListOf rs axisNodes "uncommitted"
  let uncommittedCount := uncommittedList.length
  let uncommittedStartR := if committedNodes.isEmpty then 0
    else committedMaxRawROnAxis o rs axisNodes
  let uncommittedEndR := o
  let baseR := ringRadiusById o n.ringId
  let offset := spreadOffset idx k
  let rawR :=
    if n.ringId = "uncommitted" then
      let gap := if uncommittedCount = 0 then 0
        else (uncommittedEndR - uncommittedStartR) / ((uncommittedCount : ℚ) + 1)
      uncommittedStartR + ((idx : ℚ) + 1) * gap
    else baseR + offset
  min rawR (o - 10)

/-- The pre-clamp value `rawR` of the same rendering map (everything of
`nodeRadiusOnAxis` except the final `Math.min` against `o - 10`). -/
def nodeRawROnAxis (o : ℚ) (rs : List RingItem) (axisNodes : List NodeItem)
    (n : NodeItem) : ℚ :=
  let ringList := ringListOf rs axisNodes n.ringId
  let idx := idxOfId ringList n.id
  let k := ringList.length
  let committedNodes := axisNodes.filter (fun x => !(x.ringId == "uncommitted"))
  let uncommittedList := ringListOf rs axisNodes "uncommitted"
  let uncommittedCount := uncommittedList.length
  let uncommittedStartR := if committedNodes.isEmpty then 0
    else committedMaxRawROnAxis o rs axisNodes
  let uncommittedEndR := o
  let baseR := ringRadiusById o n.ringId
  let offset := spreadOffset idx k
  if n.ringId = "uncommitted" then
    let gap := if uncommittedCount = 0 then 0
      else (uncommittedEndR - uncommittedStartR) / ((uncommittedCount : ℚ) + 1)
    uncommittedStartR + ((idx : ℚ) + 1) * gap
  else baseR + offset

/-- The default ring collection (`DEFAULT_RINGS`, App.tsx lines 411-416). -/
def DEFAULT_RINGS : List RingItem :=
  [⟨"now", "Now"⟩, ⟨"next", "Next"⟩, ⟨"later", "Later"⟩,
   ⟨"uncommitted", "Uncommitted"⟩]

theorem nodeRadiusOnAxis_eq_min (o : ℚ) (rs : List RingItem)
    (axisNodes : List NodeItem) (n : NodeItem) :
    nodeRadiusOnAxis o rs axisNodes n = min (nodeRawROnAxis o rs axisNodes n) (o - 10) := by
  unfold nodeRadiusOnAxis nodeRawROnAxis
  rfl

/-- Truncation toward zero, as used by the JavaScript `%` remainder:
`a % b = a - b * trunc(a / b)`. -/
def jsTrunc (q : ℚ) : Int := if 0 ≤ q then ⌊q⌋ else ⌈q⌉

/-- `normalizeAngle` (App.tsx lines 2211-2216) in units of π: reduce modulo 2
with the JavaScript remainder (truncated division, sign of the dividend) and
shift negative results up by one turn. -/
def normalizeAngle (a : ℚ) : ℚ :=
  let r := a - 2 * jsTrunc (a / 2)
  if r < 0 then r + 2 else r

/-- `circularAngleDiff` (App.tsx lines 2218-2222) in units of π:
`d = |a - b| % 2π` then fold to at most π. The operand `|a - b|` is
non-negative, so the JavaScript remainder agrees with floor-mod. -/
def circularAngleDiff (a b : ℚ) : ℚ :=
  let d := |a - b| - 2 * ⌊|a - b| / 2⌋
  if d > 1 then 2 - d else d

/-- `axisAngleOffset` (App.tsx lines 2172-2175) in units of π: `1/4` for four
axes, `1/8` for eight, else `0`. -/
def axisAngleOffset (axisCount : Nat) : ℚ :=
  if axisCount = 4 then 1/4 else if axisCount = 8 then 1/8 else 0

/-- The configured angle of axis `i` out of `axisCount`, in units of π:
`axisAngleOffset + (-Math.PI / 2 + (i * 2 * Math.PI) / axes.length)`
(App.tsx lines 2234, 2610). -/
def axisAngle (axisCount i : Nat) : ℚ :=
  axisAngleOffset axisCount + (-(1/2) + (i : ℚ) * 2 / (axisCount : ℚ))

/-- One step of the best-axis scan in `snapAxisIdFromPoint` (App.tsx lines
2229-2240). The accumulator holds the best axis id so far and `some d` for
its distance; `none` stands for the start value `Infinity`, which every
finite distance beats. -/
def snapAxisStep (dropA : ℚ) (axisCount : Nat) (acc : String × Option ℚ)
    (p : Nat × Axis) : String × Option ℚ :=
  let axA := normalizeAngle (axisAngle axisCount p.1)
  let d := circularAngleDiff dropA axA
  match acc.2 with
  | none => (p.2.id, some d)
  | some b => if d < b then (p.2.id, some d) else acc

/-- `snapAxisIdFromPoint` (App.tsx lines 2224-2243) after the drop angle has
been computed: returns `""` for an empty axis list, otherwise scans every
axis for the smallest circular distance to the normalized drop angle.
`dropA0` is the drop angle in units of π (the source obtains it by
`Math.atan2`; the scan is over an arbitrary angle here). -/
def snapAxisIdFromAngle (axes : List Axis) (dropA0 : ℚ) : String :=
  match axes with
  | [] => ""
  | a0 :: _ =>
    let dropA := normalizeAngle dropA0
    ((axes.enum).foldl (snapAxisStep dropA axes.length) (a0.id, none)).1

/-- One step of the nearest-ring scan in `snapRingIdFromRadius`
(App.tsx lines 2284-2293). -/
def snapRingStep (dropR : ℚ) (acc : String × ℚ) (c : String × ℚ) : String × ℚ :=
  if |dropR - c.2| < acc.2 then (c.1, |dropR - c.2|) else acc

/-- `snapRingIdFromRadius` (App.tsx lines 2276-2304): nearest of the three
positional rings by absolute difference, overridden to `uncommitted` when the
drop radius reaches the midpoint between the committed frontier
(`computeCommittedMaxRawRForAxis`) and the outer radius (half the outer
radius when the frontier is `0`). -/
def snapRingIdFromRadius (o : ℚ) (rs : List RingItem) (nodes : List NodeItem)
    (axisId : String) (dropR : ℚ) : String :=
  let best := [("next", 7/10 * o), ("later", o)].foldl (snapRingStep dropR)
    ("now", |dropR - 2/5 * o|)
  let committedMaxRawR := computeCommittedMaxRawRForAxis o rs nodes axisId
  let uncommittedMidR := if committedMaxRawR = 0 then o / 2
    else (committedMaxRawR + o) / 2
  if dropR ≥ uncommittedMidR then "uncommitted" else best.1

/-- Closed-form restatement of the ring choice, following the amended wording
of the specification: force `uncommitted` at or beyond the threshold,
otherwise pick the positional ring nearest by absolute difference, earlier
rings winning ties. -/
def snapRingSpec (o : ℚ) (rs : List RingItem) (nodes : List NodeItem)
    (axisId : String) (dropR : ℚ) : String :=
  let committedMaxRawR := computeCommittedMaxRawRForAxis o rs nodes axisId
  let threshold := if committedMaxRawR = 0 then o / 2 else (committedMaxRawR + o) / 2
  if dropR ≥ threshold then "uncommitted"
  else if |dropR - o| < |dropR - 2/5 * o| ∧ |dropR - o| < |dropR - 7/10 * o| then "later"
  else if |dropR - 7/10 * o| < |dropR - 2/5 * o| then "next"
  else "now"

/-- `ringRank2` of `BlobLayer` (App.tsx lines 181-184): ring id to its index
in the ring collection, later duplicates overwriting earlier ones, `none`
when absent (`acc2[r.id] = i` inside a reduce). -/
def ringRank2 (rs : List RingItem) (rid : String) : Option Nat :=
  (rs.enum).foldl (fun acc p => if p.2.id = rid then some p.1 else acc) none

/-- `ringRadiusById` of `BlobLayer` (App.tsx lines 187-190): the first three
rings of the collection map to the three base radii, in collection order;
later entries overwrite earlier ones with the same id. -/
def ringRadiusByIdBlob (rs : List RingItem) (rNow rNext rLater : ℚ)
    (rid : String) : Option ℚ :=
  let m1 : Option ℚ := if (rs.get? 0).map RingItem.id = some rid then some rNow else none
  let m2 := if (rs.get? 1).map RingItem.id = some rid then some rNext else m1
  if (rs.get? 2).map RingItem.id = some rid then some rLater else m2

/-- `dotRadiusForNodeOnAxis` (App.tsx lines 233-242): ring base radius (outer
radius fallback) plus the intra-ring spread offset. Unlike the node renderer,
the ring group is a plain filter of the ordered axis nodes, with no lookup in
the ring collection. -/
def dotRadiusForNodeOnAxis (rs : List RingItem) (rNow rNext rLater : ℚ)
    (axisNodesOrdered : List NodeItem) (n : NodeItem) : ℚ :=
  let baseR := (ringRadiusByIdBlob rs rNow rNext rLater n.ringId).getD rLater
  let ringList := axisNodesOrdered.filter (fun x => x.ringId == n.ringId)
  baseR + spreadOffset (idxOfId ringList n.id) ringList.length

/-- The eligibility test of `buildRadiiForTargetRank` (App.tsx lines
254-257): not in `EXCLUDED_FROM_BLOBS = {"uncommitted"}`, and ring rank
(defaulting to `0` for unknown ring ids) at most the target rank. -/
def eligibleForRank (rs : List RingItem) (targetRank : Nat) (n : NodeItem) : Bool :=
  !(n.ringId == "uncommitted") && (ringRank2 rs n.ringId).getD 0 ≤ targetRank

/-- The per-axis body of `buildRadiiForTargetRank` (App.tsx lines 247-264):
the maximum `dotRadiusForNodeOnAxis` over eligible nodes of the axis, `0`
when none is eligible. -/
def buildRadiusForAxisRank (rs : List RingItem) (rNow rNext rLater : ℚ)
    (nodes : List NodeItem) (axisId : String) (targetRank : Nat) : ℚ :=
  let axisNodesOrdered := sortedAxisNodes nodes axisId
  let eligible := axisNodesOrdered.filter (eligibleForRank rs targetRank)
  if eligible.isEmpty then 0
  else listMaxQ (eligible.map (dotRadiusForNodeOnAxis rs rNow rNext rLater axisNodesOrdered))

/-- `buildRadiiForTargetRank` (App.tsx lines 247-264): one contour radius per
axis. -/
def buildRadiiForTargetRank (rs : List RingItem) (rNow rNext rLater : ℚ)
    (axes : List Axis) (nodes : List NodeItem) (targetRank : Nat) : List ℚ :=
  axes.map (fun a => buildRadiusForAxisRank rs rNow rNext rLater nodes a.id targetRank)

/-- `easeInOutCubic` (App.tsx lines 149-151). -/
def easeInOutCubic (t : ℚ) : ℚ :=
  if t < 1/2 then 4 * t ^ 3 else 1 - (-2 * t + 2) ^ 3 / 2

/-- The animator record `animRef.current` (App.tsx lines 286-292, 313). -/
structure AnimState where
  fromArr : List (List ℚ)
  toArr : List (List ℚ)
  start : ℚ
  dur : ℚ
deriving DecidableEq

/-- The blended radius arrays computed by one animation `tick` at clock value
`now` (App.tsx lines 315-327): clamp the progress ratio to `[0, 1]`, ease it,
and interpolate every target entry from the matching `from` entry
(`a.from[ringIdx]?.[i] ?? 0`). -/
def blendedAt (a : AnimState) (now : ℚ) : List (List ℚ) :=
  let tRaw := min 1 (max 0 ((now - a.start) / a.dur))
  let t := easeInOutCubic tRaw
  a.toArr.mapIdx (fun ringIdx toA =>
    toA.mapIdx (fun i toV =>
      let fromV := ((a.fromArr.get? ringIdx).bind (fun arr => arr.get? i)).getD 0
      fromV + (toV - fromV) * t))

/-- The animation restart performed by the layout effect on every data change
(App.tsx lines 303-313): cancel the previous frame request, then animate from
the current (possibly mid-interpolation) arrays to the new targets over a
fresh 360 ms window. -/
def restartAnim (current targets : List (List ℚ)) (now : ℚ) : AnimState :=
  { fromArr := current, toArr := targets, start := now, dur := 360 }

/-- The drag-related component state touched by the node `onPointerDown`
handler: `activePointerIdRef`, `dragStartClientRef`, `didDragRef`,
`draggingNodeId`, `dragPos` and `selectedNodeId`. -/
structure DragUIState where
  activePointerId : Option Int
  dragStartClient : Option (ℚ × ℚ)
  didDrag : Bool
  draggingNodeId : Option String
  dragPos : Option (ℚ × ℚ)
  selectedNodeId : Option String
deriving DecidableEq

/-- The node group `onPointerDown` handler (App.tsx lines 2710-2734): select
the node, record the pointer identity and start position, reset the
threshold flag, mark the node as dragging and seed the drag position. `t` is
the event timestamp: the handler never reads it, and it consults no part of
the previous state. -/
def onPointerDownNode (_s : DragUIState) (nodeId : String) (pointerId : Int)
    (client pos : ℚ × ℚ) (_t : ℚ) : DragUIState :=
  { activePointerId := some pointerId
    dragStartClient := some client
    didDrag := false
    draggingNodeId := some nodeId
    dragPos := some pos
    selectedNodeId := some nodeId }

/-- The `setNodes` updater of `pointerEndDrag` (App.tsx lines 2371-2394),
parameterized by the resolved target axis and ring: keep the sequence when
neither changed, otherwise append to the end of the target group
(`reduce(Math.max, 0) + 1`); every other property of the node is spread
through unchanged. -/
def applyDrop (prev : List NodeItem) (nodeId nextAxisId nextRingId : String) :
    List NodeItem :=
  match prev.find? (fun x => x.id == nodeId) with
  | none => prev
  | some moving =>
    let axisChanged := moving.axisId ≠ nextAxisId
    let ringChanged := moving.ringId ≠ nextRingId
    let nextSeq := if axisChanged ∨ ringChanged then
        (prev.filter (fun x => x.axisId == nextAxisId && x.ringId == nextRingId)).foldl
          (fun m x => max m x.sequence) 0 + 1
      else moving.sequence
    prev.map (fun x => if x.id == nodeId then
      { x with axisId := nextAxisId, ringId := nextRingId, sequence := nextSeq }
      else x)

theorem le_foldl_max (l : List ℚ) (b : ℚ) : b ≤ l.foldl max b := by
  induction l generalizing b with
  | nil => simp
  | cons c t ih => exact le_trans (le_max_left b c) (ih (max b c))

theorem listMaxQ_mem_le (l : List ℚ) (a : ℚ) (h : a ∈ l) : a ≤ listMaxQ l := by
  match l with
  | [] => cases h
  | b :: t =>
    unfold listMaxQ
    rcases List.mem_cons.mp h with rfl | h2
    · exact le_foldl_max t a
    · clear h
      induction t generalizing b with
      | nil => cases h2
      | cons c t ih =>
        rcases List.mem_cons.mp h2 with rfl | h3
        · exact le_trans (le_max_right b a) (le_foldl_max t (max b a))
        · exact ih (max b c) h3

theorem nodeRadiusOnAxis_not_uncommitted (o : ℚ) (rs : List RingItem)
    (axisNodes : List NodeItem) (n : NodeItem) (h : n.ringId ≠ "uncommitted") :
    nodeRadiusOnAxis o rs axisNodes n =
      min (ringRadiusById o n.ringId +
        spreadOffset (idxOfId (ringListOf rs axisNodes n.ringId) n.id)
          (ringListOf rs axisNodes n.ringId).length) (o - 10) := by
  unfold nodeRadiusOnAxis
  simp only [if_neg h]

theorem nodeRadiusOnAxis_uncommitted (o : ℚ) (rs : List RingItem)
    (axisNodes : List NodeItem) (n : NodeItem) (h : n.ringId = "uncommitted") :
    nodeRadiusOnAxis o rs axisNodes n =
      min ((if (axisNodes.filter (fun x => !(x.ringId == "uncommitted"))).isEmpty
            then 0 else committedMaxRawROnAxis o rs axisNodes) +
        ((idxOfId (ringListOf rs axisNodes "uncommitted") n.id : ℚ) + 1) *
          (if (ringListOf rs axisNodes "uncommitted").length = 0 then 0
           else (o - (if (axisNodes.filter (fun x => !(x.ringId == "uncommitted"))).isEmpty
            then 0 else committedMaxRawROnAxis o rs axisNodes)) /
             ((ringListOf rs axisNodes "uncommitted").length + 1))) (o - 10) := by
  unfold nodeRadiusOnAxis
  rw [h]
  simp

theorem ringRadiusById_now (o : ℚ) : ringRadiusById o "now" = 2/5 * o := by
  unfold ringRadiusById
  rw [if_pos rfl]

theorem ringRadiusById_next (o : ℚ) : ringRadiusById o "next" = 7/10 * o := by
  unfold ringRadiusById
  rw [if_neg (by decide), if_pos rfl]

theorem ringRadiusById_later (o : ℚ) : ringRadiusById o "later" = o := by
  unfold ringRadiusById
  rw [if_neg (by decide), if_neg (by decide)]

/-- Helper node for concrete counterexamples: a single `later` node. -/
def nodeL1 : NodeItem :=
  { id := "l1", label := "L1", axisId := "a", ringId := "later", sequence := 1 }

/-- C7: the code applies no 14 px inset to a lone `later` occupant: on an
axis with one `later` node and no `uncommitted` node, with outer radius 400,
the rendered radius is `min(400, 390) = 390`, not the
`400 + 0 - 14 = 386` the claim requires. -/
theorem C7_counterexample :
    nodeRadiusOnAxis 400 DEFAULT_RINGS [nodeL1] nodeL1 = 390 ∧
      (390 : ℚ) ≠ 400 + 0 - 14 := by
  constructor
  · rw [nodeRadiusOnAxis_not_uncommitted _ _ _ _ (by simp [nodeL1])]
    simp +decide [nodeL1, DEFAULT_RINGS, ringListOf, ringRadiusById, idxOfId,
      spreadOffset]
    norm_num
  · norm_num

/-- C7 (amended): on an axis with no `uncommitted` node whose `later` ring
has exactly one occupant, that occupant is placed at its base radius plus
spread offset (which is zero for a singleton group) and clamped to
`outerRadius - 10`; no further 14 px inset exists, so the resolved radius is
exactly `outerRadius - 10`. -/
theorem C7_single_later_radius (o : ℚ) (rs : List RingItem)
    (axisNodes : List NodeItem) (n : NodeItem)
    (hring : n.ringId = "later")
    (hone : axisNodes.filter (fun x => x.ringId == "later") = [n])
    (_hnounc : axisNodes.filter (fun x => x.ringId == "uncommitted") = []) :
    nodeRadiusOnAxis o rs axisNodes n = o - 10 := by
  have hten : o - 10 ≤ o := by linarith
  rw [nodeRadiusOnAxis_not_uncommitted _ _ _ _ (by rw [hring]; decide)]
  rw [hring]
  unfold ringListOf
  by_cases hany : rs.any (fun r => r.id == "later") = true
  · simp only [if_pos hany, hone]
    rw [ringRadiusById_later]
    simp [spreadOffset, min_eq_right hten]
  · simp only [if_neg hany]
    rw [ringRadiusById_later]
    simp [spreadOffset, min_eq_right hten]

/-- Witness for C7: the amended single-later rule evaluated on a concrete
one-node axis with outer radius 400. -/
theorem C7_single_later_radius_witness :
    nodeL1.ringId = "later" ∧
    [nodeL1].filter (fun x => x.ringId == "later") = [nodeL1] ∧
    [nodeL1].filter (fun x => x.ringId == "uncommitted") = [] ∧
    nodeRadiusOnAxis 400 DEFAULT_RINGS [nodeL1] nodeL1 = 400 - 10 :=
  ⟨by decide, by decide, by decide,
    C7_single_later_radius 400 DEFAULT_RINGS [nodeL1] nodeL1 (by decide)
      (by decide) (by decide)⟩

theorem findIdx?_shift (p : NodeItem → Bool) (l : List NodeItem) :
    ∀ s : Nat, List.findIdx? p l s = (List.findIdx? p l).map (· + s) := by
  induction l with
  | nil => intro s; rfl
  | cons a t ih =>
    intro s
    rw [List.findIdx?_cons, List.findIdx?_cons]
    by_cases hp : p a = true
    · simp [hp]
    · simp only [hp, if_false]
      rw [ih (s + 1), ih 1]
      cases List.findIdx? p t 0 with
      | none => rfl
      | some j => simp; omega

theorem findIdx?_cons_zero (p : NodeItem → Bool) (a : NodeItem) (t : List NodeItem) :
    List.findIdx? p (a :: t) = if p a then some 0 else (List.findIdx? p t).map (· + 1) := by
  rw [List.findIdx?_cons]
  by_cases hp : p a = true
  · simp [hp]
  · simp only [hp, if_false]
    exact findIdx?_shift p t 1

theorem findIdx?_some_lt (p : NodeItem → Bool) (l : List NodeItem) (i : Nat)
    (h : List.findIdx? p l = some i) : i < l.length := by
  induction l generalizing i with
  | nil => cases h
  | cons a t ih =>
    rw [findIdx?_cons_zero] at h
    by_cases hp : p a = true
    · rw [if_pos hp] at h
      cases h
      simp
    · rw [if_neg hp] at h
      cases hj : List.findIdx? p t with
      | none => rw [hj] at h; cases h
      | some j =>
        rw [hj] at h
        simp at h
        have := ih j hj
        simp
        omega

theorem findIdx?_some_of_mem (p : NodeItem → Bool) (l : List NodeItem)
    (x : NodeItem) (hx : x ∈ l) (hp : p x = true) :
    ∃ i, List.findIdx? p l = some i ∧ i < l.length := by
  have hany : l.any p = true := List.any_of_mem hx hp
  have hsome : (List.findIdx? p l).isSome = true := by
    rw [List.findIdx?_isSome, hany]
  cases h : List.findIdx? p l with
  | none => rw [h] at hsome; cases hsome
  | some i => exact ⟨i, rfl, findIdx?_some_lt p l i h⟩

theorem idxOfId_bounds (l : List NodeItem) (n : NodeItem) (hn : n ∈ l) :
    0 ≤ idxOfId l n.id ∧ idxOfId l n.id ≤ (l.length : Int) - 1 := by
  obtain ⟨i, hi, hlt⟩ := findIdx?_some_of_mem (fun x => x.id == n.id) l n hn (by simp)
  unfold idxOfId
  rw [hi]
  dsimp only
  constructor
  · exact Int.ofNat_nonneg i
  · omega

theorem idxOfId_nodup (l : List NodeItem) (hnd : (l.map NodeItem.id).Nodup) :
    ∀ (j : Nat) (hj : j < l.length), idxOfId l (l.get ⟨j, hj⟩).id = (j : Int) := by
  induction l with
  | nil => intro j hj; cases hj
  | cons a t ih =>
    intro j hj
    unfold idxOfId
    rw [findIdx?_cons_zero]
    cases j with
    | zero => simp
    | succ j' =>
      have hj' : j' < t.length := by simpa using hj
      have hne : a.id ≠ (t.get ⟨j', hj'⟩).id := by
        simp only [List.map_cons, List.nodup_cons] at hnd
        intro hc
        exact hnd.1 (by
          rw [hc]
          exact List.mem_map_of_mem NodeItem.id (t.get_mem j' hj'))
      have hpa : (a.id == (List.get (a :: t) ⟨j' + 1, hj⟩).id) = false := by
        simp only [List.get_cons_succ]
        exact beq_eq_false_iff_ne.mpr hne
      rw [hpa]
      simp only [if_false, Bool.false_eq_true]
      have := ih hnd.of_cons j' hj'
      unfold idxOfId at this
      cases hfi : List.findIdx? (fun x => x.id == (t.get ⟨j', hj'⟩).id) t with
      | none => rw [hfi] at this; simp at this
      | some i =>
        rw [hfi] at this
        simp at this
        subst this
        simp only [List.get_cons_succ]
        rw [hfi]
        simp

theorem spreadOffset_bounds (idx : Int) (k : Nat) (h0 : 0 ≤ idx)
    (h1 : idx ≤ (k : Int) - 1) :
    -18 ≤ spreadOffset idx k ∧ spreadOffset idx k ≤ 18 := by
  unfold spreadOffset spread
  by_cases hk : k ≤ 1
  · rw [if_pos hk]; norm_num
  · rw [if_neg hk]
    have hk2 : 2 ≤ k := by omega
    have hkq : (1 : ℚ) ≤ (k : ℚ) - 1 := by
      have : (2 : ℚ) ≤ (k : ℚ) := by exact_mod_cast Nat.cast_le.mpr hk2
      linarith
    have hpos : (0 : ℚ) < (k : ℚ) - 1 := by linarith
    have hidx0 : (0 : ℚ) ≤ (idx : ℚ) := by exact_mod_cast h0
    have hidx1 : (idx : ℚ) ≤ (k : ℚ) - 1 := by
      have h1q : ((idx : Int) : ℚ) ≤ (((k : Int) - 1 : Int) : ℚ) := by exact_mod_cast h1
      push_cast at h1q
      linarith
    have hr0 : (0 : ℚ) ≤ (idx : ℚ) / ((k : ℚ) - 1) := div_nonneg hidx0 (le_of_lt hpos)
    have hr1 : (idx : ℚ) / ((k : ℚ) - 1) ≤ 1 := (div_le_one hpos).mpr hidx1
    constructor <;> nlinarith

theorem ringRadiusById_ge (o : ℚ) (rid : String) (ho : 0 ≤ o) :
    2/5 * o ≤ ringRadiusById o rid := by
  unfold ringRadiusById
  by_cases h1 : rid = "now"
  · rw [if_pos h1]
  · rw [if_neg h1]
    by_cases h2 : rid = "next"
    · rw [if_pos h2]; linarith
    · rw [if_neg h2]; linarith

theorem committedRawR_ge (o : ℚ) (rs : List RingItem) (axisNodes : List NodeItem)
    (cn : NodeItem) (ho : 0 ≤ o) (hcn : cn ∈ axisNodes) :
    2/5 * o - 18 ≤ committedRawR o rs axisNodes cn := by
  unfold committedRawR
  dsimp only
  have hbase := ringRadiusById_ge o cn.ringId ho
  unfold ringListOf
  by_cases hany : rs.any (fun r => r.id == cn.ringId) = true
  · rw [if_pos hany]
    have hmem : cn ∈ axisNodes.filter (fun x => x.ringId == cn.ringId) :=
      List.mem_filter.mpr ⟨hcn, by simp⟩
    obtain ⟨hi0, hi1⟩ := idxOfId_bounds _ cn hmem
    obtain ⟨hs0, _⟩ := spreadOffset_bounds _ _ hi0 hi1
    linarith
  · rw [if_neg hany]
    have : spreadOffset (idxOfId [] cn.id) ([] : List NodeItem).length = 0 := by
      unfold spreadOffset
      rw [if_pos (by simp)]
    rw [this]
    linarith

theorem committedMaxRawROnAxis_nonneg (o : ℚ) (rs : List RingItem)
    (axisNodes : List NodeItem) (ho : 45 ≤ o) :
    0 ≤ committedMaxRawROnAxis o rs axisNodes := by
  unfold committedMaxRawROnAxis
  by_cases he : (axisNodes.filter (fun n => !(n.ringId == "uncommitted"))).isEmpty = true
  · rw [if_pos he]
  · rw [if_neg he]
    cases hl : axisNodes.filter (fun n => !(n.ringId == "uncommitted")) with
    | nil => rw [hl] at he; simp at he
    | cons c t =>
      have hc : c ∈ axisNodes.filter (fun n => !(n.ringId == "uncommitted")) := by
        rw [hl]; exact List.mem_cons_self c t
      have hcm : c ∈ axisNodes := (List.mem_filter.mp hc).1
      have h1 : 2/5 * o - 18 ≤ committedRawR o rs axisNodes c :=
        committedRawR_ge o rs axisNodes c (by linarith) hcm
      have h2 : committedRawR o rs axisNodes c ≤
          listMaxQ ((axisNodes.filter (fun n => !(n.ringId == "uncommitted"))).map
            (committedRawR o rs axisNodes)) :=
        listMaxQ_mem_le _ _ (List.mem_map_of_mem _ hc)
      rw [hl] at h2
      linarith

theorem nodeRawROnAxis_nonneg (o : ℚ) (rs : List RingItem)
    (axisNodes : List NodeItem) (n : NodeItem) (ho : 45 ≤ o)
    (hn : n ∈ axisNodes) : 0 ≤ nodeRawROnAxis o rs axisNodes n := by
  unfold nodeRawROnAxis
  dsimp only
  by_cases hring : n.ringId = "uncommitted"
  · rw [if_pos hring, hring]
    set S := (if (axisNodes.filter (fun x => !(x.ringId == "uncommitted"))).isEmpty
      then 0 else committedMaxRawROnAxis o rs axisNodes) with hSdef
    have hS : 0 ≤ S := by
      rw [hSdef]
      by_cases he : (axisNodes.filter (fun x => !(x.ringId == "uncommitted"))).isEmpty = true
      · rw [if_pos he]
      · rw [if_neg he]
        exact committedMaxRawROnAxis_nonneg o rs axisNodes ho
    by_cases hm : (ringListOf rs axisNodes "uncommitted").length = 0
    · rw [if_pos hm]
      simpa using hS
    · rw [if_neg hm]
      have hmem : n ∈ ringListOf rs axisNodes "uncommitted" := by
        unfold ringListOf at hm ⊢
        by_cases hany : rs.any (fun r => r.id == "uncommitted") = true
        · rw [if_pos hany]
          exact List.mem_filter.mpr ⟨hn, by simp [hring]⟩
        · rw [if_neg hany] at hm
          simp at hm
      obtain ⟨hi0, hi1⟩ := idxOfId_bounds _ n hmem
      set idx := idxOfId (ringListOf rs axisNodes "uncommitted") n.id
      set M : ℚ := ((ringListOf rs axisNodes "uncommitted").length : ℚ) with hMdef
      have hM1 : 1 ≤ M := by
        rw [hMdef]
        have : 1 ≤ (ringListOf rs axisNodes "uncommitted").length := by omega
        exact_mod_cast this
      have hc0 : (1 : ℚ) ≤ (idx : ℚ) + 1 := by
        have : (0 : ℚ) ≤ (idx : ℚ) := by exact_mod_cast hi0
        linarith
      have hc1 : (idx : ℚ) + 1 ≤ M := by
        rw [hMdef]
        have : ((idx : Int) : ℚ) ≤ (((ringListOf rs axisNodes "uncommitted").length : Int) : ℚ) - 1 := by
          exact_mod_cast hi1
        push_cast at this
        linarith
      have hMpos : (0 : ℚ) < M + 1 := by linarith
      have key : S + ((idx : ℚ) + 1) * ((o - S) / (M + 1)) =
          ((M + 1 - ((idx : ℚ) + 1)) * S + ((idx : ℚ) + 1) * o) / (M + 1) := by
        field_simp
        ring
      rw [key]
      apply div_nonneg _ (le_of_lt hMpos)
      have ho0 : (0 : ℚ) ≤ o := by linarith
      nlinarith
  · rw [if_neg hring]
    have h1 := committedRawR_ge o rs axisNodes n (by linarith) hn
    unfold committedRawR at h1
    dsimp only at h1
    linarith

/-- C6 (amended): for outer radius at least 45 px (so that the innermost base
radius minus the largest spread, `0.4·o - 18`, is non-negative), every
resolved node radius lies within `[0, o - 10]`. The original claim fails for
smaller drawing surfaces (see the counterexample), where the spread can push
a `now` dot to a negative radius. -/
theorem C6_radius_bounds (o : ℚ) (rs : List RingItem) (axisNodes : List NodeItem)
    (n : NodeItem) (ho : 45 ≤ o) (hn : n ∈ axisNodes) :
    0 ≤ nodeRadiusOnAxis o rs axisNodes n ∧
      nodeRadiusOnAxis o rs axisNodes n ≤ o - 10 := by
  rw [nodeRadiusOnAxis_eq_min]
  constructor
  · exact le_min (nodeRawROnAxis_nonneg o rs axisNodes n ho hn) (by linarith)
  · exact min_le_right _ _

/-- Helper nodes for concrete counterexamples: two `now` nodes on one axis. -/
def nodeN1 : NodeItem :=
  { id := "n1", label := "A", axisId := "a", ringId := "now", sequence := 1 }

/-- Second `now` node of the concrete two-node axis. -/
def nodeN2 : NodeItem :=
  { id := "n2", label := "B", axisId := "a", ringId := "now", sequence := 2 }

/-- C6: with a 152 × 152 viewport the outer radius is 20, and the first of
two `now` nodes resolves to radius `0.4·20 - 18 = -10`, outside the claimed
interval `[0, outerRadius - 10]`. -/
theorem C6_counterexample :
    outerR2FromSize 152 152 = 20 ∧
    nodeRadiusOnAxis 20 DEFAULT_RINGS [nodeN1, nodeN2] nodeN1 = -10 ∧
    ¬(0 ≤ (-10 : ℚ)) := by
  refine ⟨?_, ?_, by norm_num⟩
  · unfold outerR2FromSize
    norm_num
  · rw [nodeRadiusOnAxis_not_uncommitted _ _ _ _ (by decide)]
    have h1 : ringListOf DEFAULT_RINGS [nodeN1, nodeN2] nodeN1.ringId = [nodeN1, nodeN2] := by
      decide
    rw [h1]
    have h2 : idxOfId [nodeN1, nodeN2] nodeN1.id = 0 := by decide
    rw [h2]
    have h3 : nodeN1.ringId = "now" := by decide
    rw [h3, ringRadiusById_now]
    unfold spreadOffset spread
    norm_num

/-- Witness for C6: the amended bounds evaluated on a one-node axis with
outer radius 400. -/
theorem C6_radius_bounds_witness :
    (45 : ℚ) ≤ 400 ∧ nodeL1 ∈ [nodeL1] ∧
    (0 ≤ nodeRadiusOnAxis 400 DEFAULT_RINGS [nodeL1] nodeL1 ∧
      nodeRadiusOnAxis 400 DEFAULT_RINGS [nodeL1] nodeL1 ≤ 400 - 10) :=
  ⟨by norm_num, by decide,
    C6_radius_bounds 400 DEFAULT_RINGS [nodeL1] nodeL1 (by norm_num) (by decide)⟩

theorem uncommittedStartR_eq (o : ℚ) (rs : List RingItem)
    (axisNodes : List NodeItem) :
    (if (axisNodes.filter (fun x => !(x.ringId == "uncommitted"))).isEmpty then (0 : ℚ)
     else committedMaxRawROnAxis o rs axisNodes) =
      committedMaxRawROnAxis o rs axisNodes := by
  by_cases he : (axisNodes.filter (fun x => !(x.ringId == "uncommitted"))).isEmpty = true
  · rw [if_pos he]
    unfold committedMaxRawROnAxis
    dsimp only
    rw [if_pos he]
  · rw [if_neg he]

theorem ringListOf_sublist (rs : List RingItem) (axisNodes : List NodeItem)
    (rid : String) : (ringListOf rs axisNodes rid).Sublist axisNodes := by
  unfold ringListOf
  by_cases hany : rs.any (fun r => r.id == rid) = true
  · rw [if_pos hany]
    exact List.filter_sublist axisNodes
  · rw [if_neg hany]
    exact List.nil_sublist axisNodes

/-- C1 (amended): on an axis that currently has at least one `uncommitted`
node, only the `uncommitted` members are band-placed: with the frontier `F`
taken as the maximum raw (spread-adjusted) radius over ALL non-`uncommitted`
members of the axis (`0` if there are none; not just `now`/`next` members),
the `i`-th of `m` uncommitted members (in sequence/label order) sits at
`F + (i+1)·(o - F)/(m+1)`, clamped to `o - 10`; every `later` member keeps
its ordinary placement `base + spread offset`, clamped to `o - 10`, and does
not participate in the band. -/
theorem C1_band_placement (o : ℚ) (rs : List RingItem) (axisNodes : List NodeItem)
    (hnd : (axisNodes.map NodeItem.id).Nodup)
    (hne : ringListOf rs axisNodes "uncommitted" ≠ []) :
    (∀ (i : Nat) (hi : i < (ringListOf rs axisNodes "uncommitted").length),
      nodeRadiusOnAxis o rs axisNodes
          ((ringListOf rs axisNodes "uncommitted").get ⟨i, hi⟩) =
        min (committedMaxRawROnAxis o rs axisNodes +
          ((i : ℚ) + 1) * ((o - committedMaxRawROnAxis o rs axisNodes) /
            (((ringListOf rs axisNodes "uncommitted").length : ℚ) + 1))) (o - 10)) ∧
    (∀ n ∈ axisNodes, n.ringId = "later" →
      nodeRadiusOnAxis o rs axisNodes n =
        min (o + spreadOffset (idxOfId (ringListOf rs axisNodes "later") n.id)
          (ringListOf rs axisNodes "later").length) (o - 10)) := by
  constructor
  · intro i hi
    set uncList := ringListOf rs axisNodes "uncommitted" with hU
    set n := uncList.get ⟨i, hi⟩ with husers
    have hmem : n ∈ uncList := List.get_mem uncList i hi
    have hringU : n.ringId = "uncommitted" := by
      by_cases hany : rs.any (fun r => r.id == "uncommitted") = true
      · have heq : uncList = axisNodes.filter (fun x => x.ringId == "uncommitted") := by
          rw [hU]; unfold ringListOf; rw [if_pos hany]
        rw [heq] at hmem
        have := (List.mem_filter.mp hmem).2
        simpa using this
      · exfalso
        apply hne
        rw [hU]
        unfold ringListOf
        rw [if_neg hany]
    rw [nodeRadiusOnAxis_uncommitted o rs axisNodes n hringU]
    have hm0 : (ringListOf rs axisNodes "uncommitted").length ≠ 0 := by
      rw [← hU]; omega
    rw [if_neg hm0]
    have hndU : (uncList.map NodeItem.id).Nodup :=
      List.Nodup.sublist ((ringListOf_sublist rs axisNodes "uncommitted").map NodeItem.id) hnd
    have hidx : idxOfId uncList n.id = (i : Int) := idxOfId_nodup uncList hndU i hi
    rw [← hU, hidx, uncommittedStartR_eq]
    push_cast
    ring_nf
  · intro n hn hlater
    rw [nodeRadiusOnAxis_not_uncommitted _ _ _ _ (by rw [hlater]; decide)]
    rw [hlater, ringRadiusById_later]

/-- Helper node for concrete counterexamples: an `uncommitted` node. -/
def nodeU1 : NodeItem :=
  { id := "u1", label := "U1", axisId := "a", ringId := "uncommitted", sequence := 2 }

/-- C1: on an axis with one `later` node and one `uncommitted` node (outer
radius 400), the claim makes the `later` node the first of two band
occupants above a now/next-only frontier of 0, at radius
`0 + 1·(400 - 0)/3 = 400/3`; the code instead renders it at its ordinary
`later` placement, `min(400, 390) = 390`. -/
theorem C1_counterexample :
    nodeRadiusOnAxis 400 DEFAULT_RINGS [nodeL1, nodeU1] nodeL1 = 390 ∧
    (390 : ℚ) ≠ 0 + (0 + 1) * ((400 - 0) / (2 + 1)) := by
  constructor
  · rw [nodeRadiusOnAxis_not_uncommitted _ _ _ _ (by decide)]
    have h1 : ringListOf DEFAULT_RINGS [nodeL1, nodeU1] nodeL1.ringId = [nodeL1] := by
      decide
    rw [h1]
    have h2 : idxOfId [nodeL1] nodeL1.id = 0 := by decide
    rw [h2]
    have h3 : nodeL1.ringId = "later" := by decide
    rw [h3, ringRadiusById_later]
    unfold spreadOffset
    norm_num
  · norm_num

theorem committedMaxRawR_LU :
    committedMaxRawROnAxis 400 DEFAULT_RINGS [nodeL1, nodeU1] = 400 := by
  unfold committedMaxRawROnAxis
  dsimp only
  have h1 : ([nodeL1, nodeU1].filter (fun n => !(n.ringId == "uncommitted"))) = [nodeL1] := by
    decide
  rw [h1]
  rw [if_neg (by decide)]
  simp only [List.map_cons, List.map_nil]
  show committedRawR 400 DEFAULT_RINGS [nodeL1, nodeU1] nodeL1 = 400
  unfold committedRawR
  dsimp only
  have h2 : ringListOf DEFAULT_RINGS [nodeL1, nodeU1] nodeL1.ringId = [nodeL1] := by
    decide
  rw [h2]
  have h3 : idxOfId [nodeL1] nodeL1.id = 0 := by decide
  rw [h3]
  have h4 : nodeL1.ringId = "later" := by decide
  rw [h4, ringRadiusById_later]
  unfold spreadOffset
  norm_num

/-- Witness for C1: the amended band rule evaluated on the concrete
later-plus-uncommitted axis; the lone uncommitted node lands at
`min(400 + 1·(400 - 400)/2, 390) = 390`. -/
theorem C1_band_placement_witness :
    (([nodeL1, nodeU1].map NodeItem.id).Nodup ∧
      ringListOf DEFAULT_RINGS [nodeL1, nodeU1] "uncommitted" ≠ []) ∧
    nodeRadiusOnAxis 400 DEFAULT_RINGS [nodeL1, nodeU1] nodeU1 = 390 := by
  refine ⟨⟨by decide, by decide⟩, ?_⟩
  have h := (C1_band_placement 400 DEFAULT_RINGS [nodeL1, nodeU1] (by decide)
    (by decide)).1 0 (by decide)
  have hget : (ringListOf DEFAULT_RINGS [nodeL1, nodeU1] "uncommitted").get
      ⟨0, by decide⟩ = nodeU1 := by decide
  rw [hget, committedMaxRawR_LU] at h
  have hlen : ((ringListOf DEFAULT_RINGS [nodeL1, nodeU1] "uncommitted").length : ℚ) = 1 := by
    norm_num [show (ringListOf DEFAULT_RINGS [nodeL1, nodeU1] "uncommitted").length = 1 from by decide]
  rw [hlen] at h
  rw [h]
  norm_num

/-- C2 (amended): the ring chosen on release is the nearest of the three
positional rings by absolute difference (earlier rings winning ties), unless
the drop radius is at or beyond the uncommitted threshold, which is the
midpoint between the outer radius and the committed frontier of the target
axis computed by `computeCommittedMaxRawRForAxis` over ALL non-`uncommitted`
members (not just `now`/`next`), with `o/2` used when that frontier is `0`.
With a single `now` node on the target axis and outer radius 400 the
frontier is 160 and the threshold 280, so drop radius 300 resolves to
`uncommitted` and drop radius 150 to `now`. -/
theorem C2_ring_selection :
    (∀ (o : ℚ) (rs : List RingItem) (nodes : List NodeItem) (axisId : String)
      (dropR : ℚ), snapRingIdFromRadius o rs nodes axisId dropR =
        snapRingSpec o rs nodes axisId dropR) ∧
    snapRingIdFromRadius 400 DEFAULT_RINGS [nodeN1] "a" 300 = "uncommitted" ∧
    snapRingIdFromRadius 400 DEFAULT_RINGS [nodeN1] "a" 150 = "now" := by
  have main : ∀ (o : ℚ) (rs : List RingItem) (nodes : List NodeItem)
      (axisId : String) (dropR : ℚ), snapRingIdFromRadius o rs nodes axisId dropR =
        snapRingSpec o rs nodes axisId dropR := by
    intro o rs nodes axisId dropR
    unfold snapRingIdFromRadius snapRingSpec
    dsimp only [List.foldl]
    unfold snapRingStep
    by_cases ht : dropR ≥ (if computeCommittedMaxRawRForAxis o rs nodes axisId = 0
      then o / 2 else (computeCommittedMaxRawRForAxis o rs nodes axisId + o) / 2)
    · rw [if_pos ht, if_pos ht]
    · rw [if_neg ht, if_neg ht]
      by_cases h1 : |dropR - 7/10 * o| < |dropR - 2/5 * o|
      · rw [if_pos h1]
        dsimp only
        by_cases h2 : |dropR - o| < |dropR - 7/10 * o|
        · rw [if_pos h2]
          dsimp only
          rw [if_pos ⟨lt_trans h2 h1, h2⟩]
        · rw [if_neg h2]
          dsimp only
          rw [if_neg (fun hc => h2 hc.2), if_pos h1]
      · rw [if_neg h1]
        dsimp only
        by_cases h2 : |dropR - o| < |dropR - 2/5 * o|
        · rw [if_pos h2]
          dsimp only
          rw [if_pos ⟨h2, lt_of_lt_of_le h2 (not_lt.mp h1)⟩]
        · rw [if_neg h2]
          dsimp only
          rw [if_neg (fun hc => h2 hc.1), if_neg h1]
  have hfront : computeCommittedMaxRawRForAxis 400 DEFAULT_RINGS [nodeN1] "a" = 160 := by
    unfold computeCommittedMaxRawRForAxis
    have hs : sortedAxisNodes [nodeN1] "a" = [nodeN1] := by decide
    rw [hs]
    unfold committedMaxRawROnAxis
    dsimp only
    have h1 : ([nodeN1].filter (fun n => !(n.ringId == "uncommitted"))) = [nodeN1] := by
      decide
    rw [h1, if_neg (by decide)]
    simp only [List.map_cons, List.map_nil]
    show committedRawR 400 DEFAULT_RINGS [nodeN1] nodeN1 = 160
    unfold committedRawR
    dsimp only
    have h2 : ringListOf DEFAULT_RINGS [nodeN1] nodeN1.ringId = [nodeN1] := by decide
    rw [h2]
    have h3 : idxOfId [nodeN1] nodeN1.id = 0 := by decide
    rw [h3]
    have h4 : nodeN1.ringId = "now" := by decide
    rw [h4, ringRadiusById_now]
    unfold spreadOffset
    norm_num
  refine ⟨main, ?_, ?_⟩
  · unfold snapRingIdFromRadius
    dsimp only [List.foldl]
    rw [hfront]
    rw [if_neg (show ¬(160 : ℚ) = 0 by norm_num)]
    rw [if_pos (show (300 : ℚ) ≥ (160 + 400) / 2 by norm_num)]
  · unfold snapRingIdFromRadius
    dsimp only [List.foldl]
    rw [hfront]
    rw [if_neg (show ¬(160 : ℚ) = 0 by norm_num)]
    rw [if_neg (show ¬(150 : ℚ) ≥ (160 + 400) / 2 by norm_num)]
    unfold snapRingStep
    rw [if_neg (show ¬(|(150 : ℚ) - 7/10 * 400| < |(150 : ℚ) - 2/5 * 400|) by norm_num)]
    dsimp only
    rw [if_neg (show ¬(|(150 : ℚ) - 400| < |(150 : ℚ) - 2/5 * 400|) by norm_num)]

/-- The inner-committed frontier exactly as worded by the specification for
claim C2 (via 4.2 step 4): the maximum raw (spread-adjusted) radius among
`now` and `next` members only, `0` if there are none. Used only to state the
counterexample against the claim. -/
def claimFrontierNowNext (o : ℚ) (rs : List RingItem) (nodes : List NodeItem)
    (axisId : String) : ℚ :=
  let s := sortedAxisNodes nodes axisId
  let nn := s.filter (fun n => n.ringId == "now" || n.ringId == "next")
  if nn.isEmpty then 0 else listMaxQ (nn.map (committedRawR o rs s))

/-- The ring choice exactly as claim C2 words it: threshold at the midpoint
between the now/next-only frontier and the outer radius (`o/2` when the axis
has no committed nodes); at or beyond it `uncommitted`, otherwise the
nearest positional ring. -/
def claimC2RingChoice (o : ℚ) (rs : List RingItem) (nodes : List NodeItem)
    (axisId : String) (dropR : ℚ) : String :=
  let s := sortedAxisNodes nodes axisId
  let committed := s.filter (fun n => !(n.ringId == "uncommitted"))
  let threshold := if committed.isEmpty then o / 2
    else (claimFrontierNowNext o rs nodes axisId + o) / 2
  if dropR ≥ threshold then "uncommitted"
  else if |dropR - o| < |dropR - 2/5 * o| ∧ |dropR - o| < |dropR - 7/10 * o| then "later"
  else if |dropR - 7/10 * o| < |dropR - 2/5 * o| then "next"
  else "now"

theorem computeCommittedMaxRawR_L :
    computeCommittedMaxRawRForAxis 400 DEFAULT_RINGS [nodeL1] "a" = 400 := by
  unfold computeCommittedMaxRawRForAxis
  have hs : sortedAxisNodes [nodeL1] "a" = [nodeL1] := by decide
  rw [hs]
  unfold committedMaxRawROnAxis
  dsimp only
  have h1 : ([nodeL1].filter (fun n => !(n.ringId == "uncommitted"))) = [nodeL1] := by
    decide
  rw [h1, if_neg (by decide)]
  simp only [List.map_cons, List.map_nil]
  show committedRawR 400 DEFAULT_RINGS [nodeL1] nodeL1 = 400
  unfold committedRawR
  dsimp only
  have h2 : ringListOf DEFAULT_RINGS [nodeL1] nodeL1.ringId = [nodeL1] := by decide
  rw [h2]
  have h3 : idxOfId [nodeL1] nodeL1.id = 0 := by decide
  rw [h3]
  have h4 : nodeL1.ringId = "later" := by decide
  rw [h4, ringRadiusById_later]
  unfold spreadOffset
  norm_num

/-- C2: on an axis whose only node is in `later` (outer radius 400), the
claim computes a now/next frontier of 0 and a threshold of 200, so drop
radius 300 should resolve to `uncommitted`; the code computes the frontier
over all committed members (400), a threshold of 400, and resolves drop
radius 300 to `next`. -/
theorem C2_counterexample :
    claimC2RingChoice 400 DEFAULT_RINGS [nodeL1] "a" 300 = "uncommitted" ∧
    snapRingIdFromRadius 400 DEFAULT_RINGS [nodeL1] "a" 300 = "next" ∧
    ("next" : String) ≠ "uncommitted" := by
  refine ⟨?_, ?_, by decide⟩
  · unfold claimC2RingChoice
    dsimp only
    have hs : sortedAxisNodes [nodeL1] "a" = [nodeL1] := by decide
    rw [hs]
    have h1 : ([nodeL1].filter (fun n => !(n.ringId == "uncommitted"))) = [nodeL1] := by
      decide
    rw [h1]
    rw [if_neg (show ¬(([nodeL1] : List NodeItem).isEmpty = true) by decide)]
    have h2 : claimFrontierNowNext 400 DEFAULT_RINGS [nodeL1] "a" = 0 := by
      unfold claimFrontierNowNext
      dsimp only
      rw [hs]
      have h3 : ([nodeL1].filter (fun n => n.ringId == "now" || n.ringId == "next")) =
          [] := by decide
      rw [h3]
      rfl
    rw [h2]
    rw [if_pos (show (300 : ℚ) ≥ (0 + 400) / 2 by norm_num)]
  · unfold snapRingIdFromRadius
    dsimp only [List.foldl]
    rw [computeCommittedMaxRawR_L]
    rw [if_neg (show ¬(400 : ℚ) = 0 by norm_num)]
    rw [if_neg (show ¬(300 : ℚ) ≥ (400 + 400) / 2 by norm_num)]
    unfold snapRingStep
    rw [if_pos (show |(300 : ℚ) - 7/10 * 400| < |(300 : ℚ) - 2/5 * 400| by norm_num)]
    dsimp only
    rw [if_neg (show ¬(|(300 : ℚ) - 400| < |(300 : ℚ) - 7/10 * 400|) by norm_num)]

/-- The eligible node list of `buildRadiiForTargetRank` for one axis. -/
def eligibleNodes (rs : List RingItem) (nodes : List NodeItem) (axisId : String)
    (targetRank : Nat) : List NodeItem :=
  (sortedAxisNodes nodes axisId).filter (eligibleForRank rs targetRank)

theorem buildRadiusForAxisRank_eq (rs : List RingItem) (rNow rNext rLater : ℚ)
    (nodes : List NodeItem) (axisId : String) (targetRank : Nat) :
    buildRadiusForAxisRank rs rNow rNext rLater nodes axisId targetRank =
      if (eligibleNodes rs nodes axisId targetRank).isEmpty then 0
      else listMaxQ ((eligibleNodes rs nodes axisId targetRank).map
        (dotRadiusForNodeOnAxis rs rNow rNext rLater (sortedAxisNodes nodes axisId))) := rfl

theorem ringRadiusByIdBlob_default_now (rN rX rL : ℚ) :
    ringRadiusByIdBlob DEFAULT_RINGS rN rX rL "now" = some rN := by
  unfold ringRadiusByIdBlob
  rw [if_neg (by decide), if_neg (by decide), if_pos (by decide)]

theorem ringRadiusByIdBlob_default_next (rN rX rL : ℚ) :
    ringRadiusByIdBlob DEFAULT_RINGS rN rX rL "next" = some rX := by
  unfold ringRadiusByIdBlob
  rw [if_neg (by decide), if_pos (by decide)]

theorem ringRadiusByIdBlob_default_later (rN rX rL : ℚ) :
    ringRadiusByIdBlob DEFAULT_RINGS rN rX rL "later" = some rL := by
  unfold ringRadiusByIdBlob
  rw [if_pos (by decide)]

theorem ringRadiusByIdBlob_none (rs : List RingItem) (rN rX rL : ℚ) (rid : String)
    (h : ∀ r ∈ rs, r.id ≠ rid) :
    ringRadiusByIdBlob rs rN rX rL rid = none := by
  have hget : ∀ i : Nat, (rs.get? i).map RingItem.id ≠ some rid := by
    intro i hc
    cases hg : rs.get? i with
    | none => rw [hg] at hc; cases hc
    | some r =>
      rw [hg] at hc
      simp at hc
      exact h r (List.get?_mem hg) hc
  unfold ringRadiusByIdBlob
  rw [if_neg (hget 2), if_neg (hget 1), if_neg (hget 0)]

theorem ringRank2_none (rs : List RingItem) (rid : String)
    (h : ∀ r ∈ rs, r.id ≠ rid) : ringRank2 rs rid = none := by
  unfold ringRank2
  have key : ∀ (l : List (Nat × RingItem)) (acc : Option Nat),
      (∀ p ∈ l, p.2.id ≠ rid) →
      l.foldl (fun acc p => if p.2.id = rid then some p.1 else acc) acc = acc := by
    intro l
    induction l with
    | nil => intro acc _; rfl
    | cons p t ih =>
      intro acc hall
      rw [List.foldl_cons]
      rw [if_neg (hall p (List.mem_cons_self p t))]
      exact ih acc (fun q hq => hall q (List.mem_cons_of_mem p hq))
  apply key
  intro p hp
  have : p.2 ∈ rs := by
    have := List.mem_enum hp
    rw [this.2]
    exact List.get_mem rs p.1 this.1
  exact h p.2 this

theorem dot_eq_nodeRawR (o : ℚ) (s : List NodeItem) (n : NodeItem)
    (hn : n.ringId = "now" ∨ n.ringId = "next" ∨ n.ringId = "later") :
    dotRadiusForNodeOnAxis DEFAULT_RINGS (2/5 * o) (7/10 * o) o s n =
      nodeRawROnAxis o DEFAULT_RINGS s n := by
  have hnu : ¬(n.ringId = "uncommitted") := by
    rcases hn with h | h | h <;> rw [h] <;> decide
  unfold dotRadiusForNodeOnAxis nodeRawROnAxis
  dsimp only
  rw [if_neg hnu]
  have hlist : ringListOf DEFAULT_RINGS s n.ringId =
      s.filter (fun x => x.ringId == n.ringId) := by
    unfold ringListOf
    rcases hn with h | h | h <;> rw [h] <;> rw [if_pos (by decide)]
  rw [hlist]
  have hbase : (ringRadiusByIdBlob DEFAULT_RINGS (2/5 * o) (7/10 * o) o n.ringId).getD o =
      ringRadiusById o n.ringId := by
    rcases hn with h | h | h <;> rw [h]
    · rw [ringRadiusByIdBlob_default_now, ringRadiusById_now]; rfl
    · rw [ringRadiusByIdBlob_default_next, ringRadiusById_next]; rfl
    · rw [ringRadiusByIdBlob_default_later, ringRadiusById_later]; rfl
  rw [hbase]

/-- C4 (amended): with the default ring collection, the contour radius of an
axis at cumulative rank `r` is the maximum of the PRE-CLAMP raw radii
(`base + spread offset`) of the eligible nodes (ring rank at most `r`, ring
not `uncommitted`), and `0` exactly when no node is eligible — in particular
an axis with zero now-or-earlier nodes has contour radius 0 at rank 0. Only
when no eligible raw radius exceeds `outerRadius - 10` (that is, when the
clamp is inactive) does it equal the maximum RESOLVED radius; the
counterexample shows the two differ as soon as the spread pushes a dot
beyond the clamp. -/
theorem C4_contour_radius (o : ℚ) (nodes : List NodeItem) (axisId : String)
    (targetRank : Nat)
    (hwf : ∀ n ∈ sortedAxisNodes nodes axisId,
      n.ringId = "now" ∨ n.ringId = "next" ∨ n.ringId = "later" ∨
        n.ringId = "uncommitted") :
    (eligibleNodes DEFAULT_RINGS nodes axisId targetRank = [] →
      buildRadiusForAxisRank DEFAULT_RINGS (2/5 * o) (7/10 * o) o nodes axisId
        targetRank = 0) ∧
    (buildRadiusForAxisRank DEFAULT_RINGS (2/5 * o) (7/10 * o) o nodes axisId
        targetRank =
      if (eligibleNodes DEFAULT_RINGS nodes axisId targetRank).isEmpty then 0
      else listMaxQ ((eligibleNodes DEFAULT_RINGS nodes axisId targetRank).map
        (nodeRawROnAxis o DEFAULT_RINGS (sortedAxisNodes nodes axisId)))) ∧
    ((∀ n ∈ eligibleNodes DEFAULT_RINGS nodes axisId targetRank,
        nodeRawROnAxis o DEFAULT_RINGS (sortedAxisNodes nodes axisId) n ≤ o - 10) →
      eligibleNodes DEFAULT_RINGS nodes axisId targetRank ≠ [] →
      buildRadiusForAxisRank DEFAULT_RINGS (2/5 * o) (7/10 * o) o nodes axisId
        targetRank =
        listMaxQ ((eligibleNodes DEFAULT_RINGS nodes axisId targetRank).map
          (nodeRadiusOnAxis o DEFAULT_RINGS (sortedAxisNodes nodes axisId)))) := by
  have hmem3 : ∀ n ∈ eligibleNodes DEFAULT_RINGS nodes axisId targetRank,
      n.ringId = "now" ∨ n.ringId = "next" ∨ n.ringId = "later" := by
    intro n hn
    have hfil := List.mem_filter.mp hn
    have hwfn := hwf n hfil.1
    have hnu : ¬(n.ringId == "uncommitted") = true := by
      have := hfil.2
      unfold eligibleForRank at this
      exact fun hc => by simp [hc] at this
    rcases hwfn with h | h | h | h
    · exact Or.inl h
    · exact Or.inr (Or.inl h)
    · exact Or.inr (Or.inr h)
    · exact absurd (by simp [h]) hnu
  have hmap : (eligibleNodes DEFAULT_RINGS nodes axisId targetRank).map
      (dotRadiusForNodeOnAxis DEFAULT_RINGS (2/5 * o) (7/10 * o) o
        (sortedAxisNodes nodes axisId)) =
      (eligibleNodes DEFAULT_RINGS nodes axisId targetRank).map
        (nodeRawROnAxis o DEFAULT_RINGS (sortedAxisNodes nodes axisId)) :=
    List.map_congr_left (fun n hn =>
      dot_eq_nodeRawR o (sortedAxisNodes nodes axisId) n (hmem3 n hn))
  refine ⟨?_, ?_, ?_⟩
  · intro he
    rw [buildRadiusForAxisRank_eq]
    rw [if_pos (by rw [he]; rfl)]
  · rw [buildRadiusForAxisRank_eq, hmap]
  · intro hcl hne
    rw [buildRadiusForAxisRank_eq, hmap]
    rw [if_neg (by
      intro hc
      exact hne (List.isEmpty_iff.mp hc))]
    congr 1
    apply List.map_congr_left
    intro n hn
    rw [nodeRadiusOnAxis_eq_min]
    exact (min_eq_left (hcl n hn)).symm

/-- Second `later` node for the contour counterexample. -/
def nodeL2 : NodeItem :=
  { id := "l2", label := "L2", axisId := "a", ringId := "later", sequence := 2 }

theorem listMaxQ_pair (a b : ℚ) : listMaxQ [a, b] = max a b := rfl

/-- C4: with two `later` nodes on one axis (outer radius 400), the resolver
clamps the dots to 382 and 390, so the maximum resolved radius is 390; the
contour builder uses the unclamped spread radii and yields 418. -/
theorem C4_counterexample :
    buildRadiusForAxisRank DEFAULT_RINGS 160 280 400 [nodeL1, nodeL2] "a" 2 = 418 ∧
    nodeRadiusOnAxis 400 DEFAULT_RINGS [nodeL1, nodeL2] nodeL1 = 382 ∧
    nodeRadiusOnAxis 400 DEFAULT_RINGS [nodeL1, nodeL2] nodeL2 = 390 ∧
    (418 : ℚ) ≠ max 382 390 := by
  have hs : sortedAxisNodes [nodeL1, nodeL2] "a" = [nodeL1, nodeL2] := by decide
  refine ⟨?_, ?_, ?_, by norm_num [max_def]⟩
  · rw [buildRadiusForAxisRank_eq]
    have helig : eligibleNodes DEFAULT_RINGS [nodeL1, nodeL2] "a" 2 =
        [nodeL1, nodeL2] := by decide
    rw [helig]
    rw [if_neg (by decide)]
    rw [hs]
    simp only [List.map_cons, List.map_nil]
    have hd1 : dotRadiusForNodeOnAxis DEFAULT_RINGS 160 280 400 [nodeL1, nodeL2]
        nodeL1 = 382 := by
      unfold dotRadiusForNodeOnAxis
      dsimp only
      have h4 : nodeL1.ringId = "later" := by decide
      rw [h4, ringRadiusByIdBlob_default_later]
      have h1 : ([nodeL1, nodeL2].filter (fun x => x.ringId == "later")) =
          [nodeL1, nodeL2] := by decide
      rw [h1]
      have h2 : idxOfId [nodeL1, nodeL2] nodeL1.id = 0 := by decide
      rw [h2]
      unfold spreadOffset spread
      norm_num
    have hd2 : dotRadiusForNodeOnAxis DEFAULT_RINGS 160 280 400 [nodeL1, nodeL2]
        nodeL2 = 418 := by
      unfold dotRadiusForNodeOnAxis
      dsimp only
      have h4 : nodeL2.ringId = "later" := by decide
      rw [h4, ringRadiusByIdBlob_default_later]
      have h1 : ([nodeL1, nodeL2].filter (fun x => x.ringId == "later")) =
          [nodeL1, nodeL2] := by decide
      rw [h1]
      have h2 : idxOfId [nodeL1, nodeL2] nodeL2.id = 1 := by decide
      rw [h2]
      unfold spreadOffset spread
      norm_num
    rw [hd1, hd2, listMaxQ_pair]
    norm_num [max_def]
  · rw [nodeRadiusOnAxis_not_uncommitted _ _ _ _ (by decide)]
    have h1 : ringListOf DEFAULT_RINGS [nodeL1, nodeL2] nodeL1.ringId =
        [nodeL1, nodeL2] := by decide
    rw [h1]
    have h2 : idxOfId [nodeL1, nodeL2] nodeL1.id = 0 := by decide
    rw [h2]
    have h3 : nodeL1.ringId = "later" := by decide
    rw [h3, ringRadiusById_later]
    unfold spreadOffset spread
    norm_num
  · rw [nodeRadiusOnAxis_not_uncommitted _ _ _ _ (by decide)]
    have h1 : ringListOf DEFAULT_RINGS [nodeL1, nodeL2] nodeL2.ringId =
        [nodeL1, nodeL2] := by decide
    rw [h1]
    have h2 : idxOfId [nodeL1, nodeL2] nodeL2.id = 1 := by decide
    rw [h2]
    have h3 : nodeL2.ringId = "later" := by decide
    rw [h3, ringRadiusById_later]
    unfold spreadOffset spread
    norm_num

/-- Witness for C4: the amended contour characterization applied to the
single-`now`-node axis at rank 0. -/
theorem C4_contour_radius_witness :
    (∀ n ∈ sortedAxisNodes [nodeN1] "a",
      n.ringId = "now" ∨ n.ringId = "next" ∨ n.ringId = "later" ∨
        n.ringId = "uncommitted") ∧
    (buildRadiusForAxisRank DEFAULT_RINGS (2/5 * 400) (7/10 * 400) 400 [nodeN1]
        "a" 0 =
      if (eligibleNodes DEFAULT_RINGS [nodeN1] "a" 0).isEmpty then 0
      else listMaxQ ((eligibleNodes DEFAULT_RINGS [nodeN1] "a" 0).map
        (nodeRawROnAxis 400 DEFAULT_RINGS (sortedAxisNodes [nodeN1] "a")))) :=
  ⟨by decide, (C4_contour_radius 400 [nodeN1] "a" 0 (by decide)).2.1⟩

theorem spreadOffset_last_nonneg (k : Nat) (hk : 1 ≤ k) :
    0 ≤ spreadOffset ((k - 1 : Nat) : Int) k := by
  unfold spreadOffset spread
  by_cases h : k ≤ 1
  · rw [if_pos h]
  · rw [if_neg h]
    have hk2 : 2 ≤ k := by omega
    have hcast : (((k - 1 : Nat) : Int) : ℚ) = (k : ℚ) - 1 := by
      push_cast [Nat.cast_sub hk]
      ring
    rw [hcast]
    have hne : (k : ℚ) - 1 ≠ 0 := by
      have : (2 : ℚ) ≤ (k : ℚ) := by exact_mod_cast hk2
      intro hc
      linarith
    rw [div_self hne]
    norm_num

/-- C10: a node whose ring id occurs nowhere in the ring collection (and is
not `uncommitted`) is eligible at every cumulative rank (its rank defaults
to 0) and its ring group falls back to the outermost base radius, so the
contour radius of its axis is at least `ringLater` at every rank, including
rank 0. -/
theorem C10_unknown_ring (rN rX rL : ℚ) (rs : List RingItem)
    (nodes : List NodeItem) (axisId : String) (n : NodeItem)
    (hnd : ((sortedAxisNodes nodes axisId).map NodeItem.id).Nodup)
    (hn : n ∈ sortedAxisNodes nodes axisId)
    (hrid : ∀ r ∈ rs, r.id ≠ n.ringId)
    (hnu : n.ringId ≠ "uncommitted") :
    ∀ targetRank : Nat,
      rL ≤ buildRadiusForAxisRank rs rN rX rL nodes axisId targetRank := by
  intro targetRank
  have hnrb : n ∈ (sortedAxisNodes nodes axisId).filter
      (fun x => x.ringId == n.ringId) :=
    List.mem_filter.mpr ⟨hn, by simp⟩
  have hrb : (sortedAxisNodes nodes axisId).filter
      (fun x => x.ringId == n.ringId) ≠ [] := List.ne_nil_of_mem hnrb
  set rb := (sortedAxisNodes nodes axisId).filter (fun x => x.ringId == n.ringId)
    with hrbdef
  set e := rb.getLast hrb with hedef
  have he_mem_rb : e ∈ rb := List.getLast_mem hrb
  have he_s : e ∈ sortedAxisNodes nodes axisId := (List.mem_filter.mp he_mem_rb).1
  have he_ring : e.ringId = n.ringId := by
    have := (List.mem_filter.mp he_mem_rb).2
    simpa using this
  have hrid_e : ∀ r ∈ rs, r.id ≠ e.ringId := by
    rw [he_ring]; exact hrid
  have helig : eligibleForRank rs targetRank e = true := by
    unfold eligibleForRank
    have h2 : ringRank2 rs e.ringId = none := ringRank2_none rs e.ringId hrid_e
    rw [h2]
    have h1 : (e.ringId == "uncommitted") = false := by
      rw [he_ring]
      exact beq_eq_false_iff_ne.mpr hnu
    rw [h1]
    simp
  have he_elig : e ∈ eligibleNodes rs nodes axisId targetRank :=
    List.mem_filter.mpr ⟨he_s, helig⟩
  have hne : eligibleNodes rs nodes axisId targetRank ≠ [] :=
    List.ne_nil_of_mem he_elig
  rw [buildRadiusForAxisRank_eq]
  rw [if_neg (fun hc => hne (List.isEmpty_iff.mp hc))]
  have hmax := listMaxQ_mem_le _
    (dotRadiusForNodeOnAxis rs rN rX rL (sortedAxisNodes nodes axisId) e)
    (List.mem_map_of_mem _ he_elig)
  have hdot : rL ≤ dotRadiusForNodeOnAxis rs rN rX rL (sortedAxisNodes nodes axisId) e := by
    unfold dotRadiusForNodeOnAxis
    dsimp only
    have hbase : (ringRadiusByIdBlob rs rN rX rL e.ringId).getD rL = rL := by
      rw [ringRadiusByIdBlob_none rs rN rX rL e.ringId hrid_e]
      rfl
    rw [hbase]
    have hlist : (sortedAxisNodes nodes axisId).filter
        (fun x => x.ringId == e.ringId) = rb := by
      rw [hrbdef, he_ring]
    rw [hlist]
    have hlenpos : 1 ≤ rb.length := by
      cases hc : rb with
      | nil => exact absurd hc hrb
      | cons a t => simp [hc]
    have hlt : rb.length - 1 < rb.length := by omega
    have hgl : e = rb.get ⟨rb.length - 1, hlt⟩ := by
      rw [hedef]
      exact List.getLast_eq_get rb hrb
    have hnd_rb : (rb.map NodeItem.id).Nodup :=
      List.Nodup.sublist ((List.filter_sublist _).map NodeItem.id) hnd
    have hidx : idxOfId rb e.id = ((rb.length - 1 : Nat) : Int) := by
      rw [hgl]
      exact idxOfId_nodup rb hnd_rb (rb.length - 1) hlt
    rw [hidx]
    have := spreadOffset_last_nonneg rb.length hlenpos
    linarith
  linarith

/-- Helper node for the C10 witness: a node with an unknown ring id. -/
def nodeX1 : NodeItem :=
  { id := "x1", label := "X1", axisId := "a", ringId := "mystery", sequence := 1 }

/-- Witness for C10: an axis whose only node has the unknown ring id
`mystery` keeps the rank-0 contour at or above the outer radius. -/
theorem C10_unknown_ring_witness :
    (((sortedAxisNodes [nodeX1] "a").map NodeItem.id).Nodup ∧
      nodeX1 ∈ sortedAxisNodes [nodeX1] "a" ∧
      (∀ r ∈ DEFAULT_RINGS, r.id ≠ nodeX1.ringId) ∧
      nodeX1.ringId ≠ "uncommitted") ∧
    (400 : ℚ) ≤ buildRadiusForAxisRank DEFAULT_RINGS 160 280 400 [nodeX1] "a" 0 :=
  ⟨⟨by decide, by decide, by decide, by decide⟩,
    C10_unknown_ring 160 280 400 DEFAULT_RINGS [nodeX1] "a" nodeX1 (by decide)
      (by decide) (by decide) (by decide) 0⟩

theorem find?_map_update (upd : NodeItem → NodeItem)
    (hid : ∀ x, (upd x).id = x.id) (l : List NodeItem) (nodeId : String)
    (moving : NodeItem) (hfind : l.find? (fun x => x.id == nodeId) = some moving) :
    (l.map (fun x => if x.id == nodeId then upd x else x)).find?
      (fun x => x.id == nodeId) = some (upd moving) := by
  induction l with
  | nil => cases hfind
  | cons a t ih =>
    rw [List.map_cons]
    by_cases ha : (a.id == nodeId) = true
    · rw [List.find?_cons_of_pos t ha] at hfind
      have hma : moving = a := by
        cases hfind
        rfl
      rw [if_pos ha]
      have hstep : List.find? (fun x => x.id == nodeId)
          (upd a :: t.map (fun x => if x.id == nodeId then upd x else x)) =
            some (upd a) := by
        apply List.find?_cons_of_pos
        show ((upd a).id == nodeId) = true
        rw [hid a]
        exact ha
      rw [hstep, hma]
    · rw [List.find?_cons_of_neg t ha] at hfind
      rw [if_neg ha]
      have hstep : List.find? (fun x => x.id == nodeId)
          (a :: t.map (fun x => if x.id == nodeId then upd x else x)) =
            List.find? (fun x => x.id == nodeId)
              (t.map (fun x => if x.id == nodeId then upd x else x)) := by
        apply List.find?_cons_of_neg
        exact ha
      rw [hstep]
      exact ih hfind

/-- The sequence assigned by the drop updater when the node joins a new
axis-and-ring group: one past the maximum of 0 and the sequences already in
the target group. -/
def appendSeq (prev : List NodeItem) (aId rId : String) : Int :=
  (prev.filter (fun x => x.axisId == aId && x.ringId == rId)).foldl
    (fun m x => max m x.sequence) 0 + 1

/-- C3 (amended): when the resolved axis or ring differs from the current
one, the dragged node keeps every other property — including any manual
override, which is NOT cleared — and its sequence becomes 1 plus the
maximum of 0 and the sequences already in the target axis-and-ring group
(so an empty group yields sequence 1). When neither axis nor ring changed,
the whole node collection is returned unchanged: the sequence is preserved
and no manual override of any kind is written (the code never persists
`dropRadius / outerRadius`). -/
theorem C3_drop_mutation (prev : List NodeItem) (nodeId nextAxisId nextRingId : String)
    (moving : NodeItem)
    (hfind : prev.find? (fun x => x.id == nodeId) = some moving)
    (hnd : (prev.map NodeItem.id).Nodup) :
    ((moving.axisId ≠ nextAxisId ∨ moving.ringId ≠ nextRingId) →
      (applyDrop prev nodeId nextAxisId nextRingId).find?
          (fun x => x.id == nodeId) =
        some { moving with
                axisId := nextAxisId, ringId := nextRingId,
                sequence := appendSeq prev nextAxisId nextRingId }) ∧
    (moving.axisId = nextAxisId → moving.ringId = nextRingId →
      applyDrop prev nodeId nextAxisId nextRingId = prev) := by
  constructor
  · intro hch
    unfold applyDrop
    rw [hfind]
    dsimp only
    rw [if_pos hch]
    exact find?_map_update
      (fun x => { x with
        axisId := nextAxisId, ringId := nextRingId,
        sequence := (prev.filter (fun y => y.axisId == nextAxisId &&
          y.ringId == nextRingId)).foldl (fun m y => max m y.sequence) 0 + 1 })
      (fun x => rfl) prev nodeId moving hfind
  · intro hax hring
    unfold applyDrop
    rw [hfind]
    dsimp only
    rw [if_neg (by
      rintro (hc | hc)
      · exact hc hax
      · exact hc hring)]
    have hmid0 := List.find?_some hfind
    have hmid : (moving.id == nodeId) = true := hmid0
    have hmmem : moving ∈ prev := List.mem_of_find?_eq_some hfind
    have heq : prev.map (fun x => if (x.id == nodeId) = true then
        { x with
            axisId := nextAxisId, ringId := nextRingId,
            sequence := moving.sequence } else x) = prev.map id := by
      apply List.map_congr_left
      intro x hx
      by_cases hxid : (x.id == nodeId) = true
      · have hxm : x = moving := by
          apply List.inj_on_of_nodup_map hnd hx hmmem
          have h1 : x.id = nodeId := by simpa using hxid
          have h2 : moving.id = nodeId := by simpa using hmid
          rw [h1, h2]
        rw [if_pos hxid, hxm, ← hax, ← hring]
        rfl
      · rw [if_neg hxid]
        rfl
    rw [heq, List.map_id]

/-- Helper node carrying a manual override, for the C3 counterexample. -/
def nodeOv : NodeItem :=
  { id := "o1", label := "O", axisId := "a", ringId := "now", sequence := 1,
    rOverride := some 1 }

/-- C3: dropping `n1` back onto its own axis and ring (drop radius 200, outer
radius 400) leaves the collection unchanged — in particular `rOverride`
stays `none` instead of becoming the claimed `some (200/400)` — and moving
`o1` from `now` to `next` keeps its `rOverride` of `some 1` instead of
clearing it. -/
theorem C3_counterexample :
    applyDrop [nodeN1] "n1" "a" "now" = [nodeN1] ∧
    nodeN1.rOverride = none ∧
    (none : Option ℚ) ≠ some (200 / 400) ∧
    (applyDrop [nodeOv] "o1" "a" "next").find? (fun x => x.id == "o1") =
      some { nodeOv with ringId := "next", sequence := 1 } ∧
    nodeOv.rOverride ≠ none := by
  refine ⟨by decide, rfl, by simp, by decide, by decide⟩

/-- Witness for C3: both branches of the drop mutation evaluated on the
concrete override-carrying node. -/
theorem C3_drop_mutation_witness :
    ([nodeOv].find? (fun x => x.id == "o1") = some nodeOv ∧
      (([nodeOv] : List NodeItem).map NodeItem.id).Nodup) ∧
    ((nodeOv.axisId ≠ "a" ∨ nodeOv.ringId ≠ "next") →
      (applyDrop [nodeOv] "o1" "a" "next").find? (fun x => x.id == "o1") =
        some { nodeOv with
                axisId := "a", ringId := "next",
                sequence := appendSeq [nodeOv] "a" "next" }) ∧
    (nodeOv.axisId = "a" → nodeOv.ringId = "next" →
      applyDrop [nodeOv] "o1" "a" "next" = [nodeOv]) :=
  ⟨⟨by decide, by decide⟩,
    C3_drop_mutation [nodeOv] "o1" "a" "next" nodeOv (by decide) (by decide)⟩

/-- C8 (amended): the node `onPointerDown` handler is oblivious to timing and
history: a second press on the same node — at ANY interval after a prior
press, 320 ms or otherwise — produces exactly the state a first press would,
re-initializing pending drag tracking (`draggingNodeId` set, `didDrag`
reset) instead of canceling it, and no inline label editing state exists in
the component. -/
theorem C8_second_press (s s' : DragUIState) (nodeId : String) (pid pid' : Int)
    (client pos : ℚ × ℚ) (t t' t'' : ℚ) :
    onPointerDownNode (onPointerDownNode s nodeId pid' client pos t') nodeId pid
        client pos t =
      onPointerDownNode s' nodeId pid client pos t'' ∧
    (onPointerDownNode (onPointerDownNode s nodeId pid' client pos t') nodeId pid
        client pos t).draggingNodeId = some nodeId ∧
    (onPointerDownNode (onPointerDownNode s nodeId pid' client pos t') nodeId pid
        client pos t).didDrag = false :=
  ⟨rfl, rfl, rfl⟩

/-- The neutral drag state before any pointer engagement. -/
def dragIdle : DragUIState :=
  { activePointerId := none, dragStartClient := none, didDrag := false,
    draggingNodeId := none, dragPos := none, selectedNodeId := none }

/-- C8: pressing node `a` at time 0 and again at time 100 (well within the
claimed 320 ms window) leaves a pending drag on node `a` (`draggingNodeId`
set, threshold flag reset); the drag is not canceled and no label editing is
opened — the handler contains no double-press detection at all. -/
theorem C8_counterexample :
    ((100 : ℚ) - 0 < 320) ∧
    (onPointerDownNode (onPointerDownNode dragIdle "a" 1 (10, 10) (5, 5) 0) "a" 2
      (10, 10) (5, 5) 100).draggingNodeId = some "a" ∧
    (onPointerDownNode (onPointerDownNode dragIdle "a" 1 (10, 10) (5, 5) 0) "a" 2
      (10, 10) (5, 5) 100).didDrag = false ∧
    (some "a" : Option String) ≠ none := by
  refine ⟨by norm_num, rfl, rfl, by simp⟩

theorem easeInOutCubic_zero : easeInOutCubic 0 = 0 := by
  unfold easeInOutCubic
  norm_num

theorem mapIdx_lookup (fA : List ℚ) : ∀ (tA : List ℚ), fA.length = tA.length →
    tA.mapIdx (fun i _ => (fA.get? i).getD 0) = fA := by
  induction fA with
  | nil =>
    intro tA h
    cases tA with
    | nil => rfl
    | cons b tb => simp at h
  | cons a fa ih =>
    intro tA h
    cases tA with
    | nil => simp at h
    | cons b tb =>
      rw [List.mapIdx_cons]
      congr 1
      exact ih tb (by simpa using h)

theorem mapIdx_lookup2 (F T : List (List ℚ))
    (h : List.Forall₂ (fun (f t : List ℚ) => f.length = t.length) F T) :
    T.mapIdx (fun r tA => tA.mapIdx (fun i _ =>
      ((F.get? r).bind (fun arr => arr.get? i)).getD 0)) = F := by
  induction h with
  | nil => rfl
  | @cons a b l1 l2 h1 h2 ih =>
    rw [List.mapIdx_cons]
    exact congrArg₂ (· :: ·) (mapIdx_lookup a b h1) ih

/-- C9 (amended): the layout effect cancels the in-flight frame request and
restarts the animation with `from` set to the arrays as last rendered; when
the new target arrays have the same per-rank lengths as the current arrays
(the axis count did not change), the blended arrays at the restart instant
equal the pre-restart blended arrays exactly — no jump. When the axis count
changes, entries for new axes start from 0 instead (see the
counterexample), so the arrays are only equal over the shared indices. -/
theorem C9_restart_continuity (current targets : List (List ℚ)) (now : ℚ)
    (h : List.Forall₂ (fun (f t : List ℚ) => f.length = t.length) current targets) :
    blendedAt (restartAnim current targets now) now = current := by
  unfold blendedAt restartAnim
  dsimp only
  rw [show ((now - now) / 360 : ℚ) = 0 by norm_num]
  rw [show (min 1 (max 0 (0 : ℚ))) = 0 by norm_num]
  rw [easeInOutCubic_zero]
  have hbody : (T : List (List ℚ)) → T.mapIdx (fun ringIdx toA =>
      toA.mapIdx (fun i toV =>
        ((current.get? ringIdx).bind (fun arr => arr.get? i)).getD 0 +
          (toV - ((current.get? ringIdx).bind (fun arr => arr.get? i)).getD 0) * 0)) =
      T.mapIdx (fun ringIdx toA => toA.mapIdx (fun i _ =>
        ((current.get? ringIdx).bind (fun arr => arr.get? i)).getD 0)) := by
    intro T
    congr 1
    funext ringIdx toA
    congr 1
    funext i toV
    ring
  rw [hbody targets]
  exact mapIdx_lookup2 current targets h

/-- C9: a data change that adds an axis (per-rank arrays grow from length 1
to length 2) restarts the animation with the new entry at 0: the initial
blended arrays are `[[1,0],[2,0],[3,0]]`, not the pre-restart
`[[1],[2],[3]]`. -/
theorem C9_counterexample :
    blendedAt (restartAnim [[1], [2], [3]] [[4, 4], [5, 5], [6, 6]] 7) 7 =
      [[1, 0], [2, 0], [3, 0]] ∧
    ([[1, 0], [2, 0], [3, 0]] : List (List ℚ)) ≠ [[1], [2], [3]] := by
  constructor
  · unfold blendedAt restartAnim
    dsimp only
    rw [show ((7 - 7 : ℚ) / 360 : ℚ) = 0 by norm_num]
    rw [show (min 1 (max 0 (0 : ℚ))) = 0 by norm_num]
    rw [easeInOutCubic_zero]
    simp only [List.mapIdx_cons, List.mapIdx_nil]
    norm_num
  · decide

/-- Witness for C9: restart continuity on concrete equal-shape arrays. -/
theorem C9_restart_continuity_witness :
    List.Forall₂ (fun (f t : List ℚ) => f.length = t.length)
      [[1], [2], [3]] [[4], [5], [6]] ∧
    blendedAt (restartAnim [[1], [2], [3]] [[4], [5], [6]] 7) 7 = [[1], [2], [3]] :=
  ⟨by constructor <;> simp, C9_restart_continuity [[1], [2], [3]] [[4], [5], [6]] 7
    (by constructor <;> simp)⟩

/-- The circular distance from the (already normalized) drop angle to the
normalized configured angle of axis `i`, in units of π. -/
def axisDist (axisCount : Nat) (dropA : ℚ) (i : Nat) : ℚ :=
  circularAngleDiff dropA (normalizeAngle (axisAngle axisCount i))

theorem snapAxisFold (n : Nat) (dropA : ℚ) :
    ∀ (l : List (Nat × Axis)) (accId : String) (accD : ℚ),
    (l.foldl (snapAxisStep dropA n) (accId, some accD) = (accId, some accD) ∧
      ∀ p ∈ l, accD ≤ axisDist n dropA p.1) ∨
    (∃ p ∈ l, l.foldl (snapAxisStep dropA n) (accId, some accD) =
        (p.2.id, some (axisDist n dropA p.1)) ∧
      axisDist n dropA p.1 ≤ accD ∧
      ∀ q ∈ l, axisDist n dropA p.1 ≤ axisDist n dropA q.1) := by
  intro l
  induction l with
  | nil =>
    intro accId accD
    exact Or.inl ⟨rfl, by simp⟩
  | cons p t ih =>
    intro accId accD
    rw [List.foldl_cons]
    have hstep : snapAxisStep dropA n (accId, some accD) p =
        if axisDist n dropA p.1 < accD then (p.2.id, some (axisDist n dropA p.1))
        else (accId, some accD) := rfl
    rw [hstep]
    by_cases hlt : axisDist n dropA p.1 < accD
    · rw [if_pos hlt]
      rcases ih p.2.id (axisDist n dropA p.1) with ⟨hres, hall⟩ | ⟨q, hq, hres, hle, hall⟩
      · right
        refine ⟨p, List.mem_cons_self p t, hres, le_of_lt hlt, ?_⟩
        intro q hq
        rcases List.mem_cons.mp hq with rfl | hq2
        · exact le_refl _
        · exact hall q hq2
      · right
        refine ⟨q, List.mem_cons_of_mem p hq, hres, le_trans hle (le_of_lt hlt), ?_⟩
        intro r hr
        rcases List.mem_cons.mp hr with rfl | hr2
        · exact hle
        · exact hall r hr2
    · rw [if_neg hlt]
      rcases ih accId accD with ⟨hres, hall⟩ | ⟨q, hq, hres, hle, hall⟩
      · left
        refine ⟨hres, ?_⟩
        intro q hq
        rcases List.mem_cons.mp hq with rfl | hq2
        · exact not_lt.mp hlt
        · exact hall q hq2
      · right
        refine ⟨q, List.mem_cons_of_mem p hq, hres, hle, ?_⟩
        intro r hr
        rcases List.mem_cons.mp hr with rfl | hr2
        · exact le_trans hle (not_lt.mp hlt)
        · exact hall r hr2

theorem mem_enum_of_lt {l : List Axis} {i : Nat} (hi : i < l.length) :
    (i, l.get ⟨i, hi⟩) ∈ l.enum := by
  have hlen : i < l.enum.length := by
    rw [List.enum_length]
    exact hi
  have h := List.getElem_enum l i hlen
  rw [List.get_eq_getElem]
  rw [← h]
  exact List.getElem_mem _

theorem enumFrom_mem_facts (a0 : Axis) {rest : List Axis} {p : Nat × Axis}
    (hp : p ∈ List.enumFrom 1 rest) :
    p.1 < (a0 :: rest).length ∧
      ∀ h : p.1 < (a0 :: rest).length, p.2 = (a0 :: rest).get ⟨p.1, h⟩ := by
  have hp' : p ∈ (a0 :: rest).enum := by
    rw [List.enum_cons]
    exact List.mem_cons_of_mem _ hp
  obtain ⟨i, x⟩ := p
  have h := List.mem_enum hp'
  refine ⟨h.1, fun hh => ?_⟩
  rw [List.get_eq_getElem]
  exact h.2

/-- C5: on release with a non-empty axis list, the selected axis minimizes
the circular angular distance between its configured angle (offset plus
`-90° + i·360°/n`, offset 45° for four axes, 22.5° for eight, else 0; here
in units of π) and the drop angle; on normalized angles this distance is
exactly the claimed `min(|Δ|, 2π - |Δ|)` (in π units, `min(|Δ|, 2 - |Δ|)`).
Ties go to the earliest such axis, which still attains the minimum. -/
theorem C5_axis_selection (axes : List Axis) (dropA0 : ℚ) (hne : axes ≠ []) :
    (∃ j, ∃ hj : j < axes.length,
      snapAxisIdFromAngle axes dropA0 = (axes.get ⟨j, hj⟩).id ∧
      ∀ i, i < axes.length →
        axisDist axes.length (normalizeAngle dropA0) j ≤
          axisDist axes.length (normalizeAngle dropA0) i) ∧
    (∀ a b : ℚ, 0 ≤ a → a < 2 → 0 ≤ b → b < 2 →
      circularAngleDiff a b = min |a - b| (2 - |a - b|)) := by
  constructor
  · match axes, hne with
    | a0 :: rest, _ =>
      have hunfold : snapAxisIdFromAngle (a0 :: rest) dropA0 =
          (((a0 :: rest).enum).foldl
            (snapAxisStep (normalizeAngle dropA0) (a0 :: rest).length)
            (a0.id, none)).1 := rfl
      rw [hunfold, List.enum_cons, List.foldl_cons]
      have hstep0 : snapAxisStep (normalizeAngle dropA0) (a0 :: rest).length
          (a0.id, none) (0, a0) =
          (a0.id, some (axisDist (a0 :: rest).length (normalizeAngle dropA0) 0)) := rfl
      rw [hstep0]
      rcases snapAxisFold (a0 :: rest).length (normalizeAngle dropA0)
          (List.enumFrom 1 rest) a0.id
          (axisDist (a0 :: rest).length (normalizeAngle dropA0) 0) with
        ⟨hres, hall⟩ | ⟨q, hq, hres, hle, hall⟩
      · refine ⟨0, Nat.succ_pos _, ?_, ?_⟩
        · rw [hres]
          rfl
        · intro i hi
          by_cases hi0 : i = 0
          · rw [hi0]
          · have hmem := mem_enum_of_lt hi
            rw [List.enum_cons] at hmem
            rcases List.mem_cons.mp hmem with heq | hmem2
            · exact absurd (congrArg Prod.fst heq) (by simpa using hi0)
            · have h9 := hall ((i, (a0 :: rest).get ⟨i, hi⟩)) hmem2
              dsimp only at h9
              exact h9
      · obtain ⟨hq1, hq2⟩ := enumFrom_mem_facts a0 hq
        refine ⟨q.1, hq1, ?_, ?_⟩
        · rw [hres]
          show q.2.id = ((a0 :: rest).get ⟨q.1, hq1⟩).id
          rw [hq2 hq1]
        · intro i hi
          by_cases hi0 : i = 0
          · rw [hi0]
            exact hle
          · have hmem := mem_enum_of_lt hi
            rw [List.enum_cons] at hmem
            rcases List.mem_cons.mp hmem with heq | hmem2
            · exact absurd (congrArg Prod.fst heq) (by simpa using hi0)
            · have h9 := hall ((i, (a0 :: rest).get ⟨i, hi⟩)) hmem2
              dsimp only at h9
              exact h9
  · intro a b ha0 ha2 hb0 hb2
    unfold circularAngleDiff
    dsimp only
    have habs0 : 0 ≤ |a - b| := abs_nonneg _
    have habs2 : |a - b| < 2 := by
      rw [abs_sub_lt_iff]
      constructor <;> linarith
    have hfl : ⌊|a - b| / 2⌋ = 0 := by
      rw [Int.floor_eq_zero_iff]
      constructor
      · positivity
      · show |a - b| / 2 < 1
        linarith
    rw [hfl]
    by_cases hgt : |a - b| - 2 * ((0 : Int) : ℚ) > 1
    · rw [if_pos hgt]
      push_cast at hgt ⊢
      rw [min_eq_right (by linarith)]
      ring
    · rw [if_neg hgt]
      push_cast at hgt ⊢
      rw [min_eq_left (by linarith)]
      ring

/-- Three concrete axes for the C5 witness. -/
def axes3 : List Axis :=
  [⟨"axA", "A", "sA"⟩, ⟨"axB", "B", "sB"⟩, ⟨"axC", "C", "sC"⟩]

/-- Witness for C5: the axis selection minimality applied to three concrete
axes and drop angle 0 (pointing right). -/
theorem C5_axis_selection_witness :
    axes3 ≠ [] ∧
    ((∃ j, ∃ hj : j < axes3.length,
      snapAxisIdFromAngle axes3 0 = (axes3.get ⟨j, hj⟩).id ∧
      ∀ i, i < axes3.length →
        axisDist axes3.length (normalizeAngle 0) j ≤
          axisDist axes3.length (normalizeAngle 0) i) ∧
    (∀ a b : ℚ, 0 ≤ a → a < 2 → 0 ≤ b → b < 2 →
      circularAngleDiff a b = min |a - b| (2 - |a - b|))) :=
  ⟨by decide, C5_axis_selection axes3 0 (by decide)⟩
